import Mathlib

/-!
# Verification of the notion-as-mcp caching and upstream-client core

A shallow embedding, in Lean 4, of the cache tiers, the refresh manager and
the resilient HTTP client of the `nixihz/notion-as-mcp` repository, together
with theorems settling the behavioural claims about that code.

Modelling conventions:

* Go byte slices (`[]byte`) are `List Nat` (each element a byte value).
* Go strings used as cache keys and file paths are `List Char` (`GoStr`);
  Go strings used only as opaque payloads (error messages, cursors) stay
  `String`.
* `time.Time` and `time.Duration` are `Int` nanoseconds (`time.Duration` is
  an `int64` nanosecond count in Go); each cache operation receives the
  current instant `now` explicitly, standing for its `time.Now()` call.
* Go maps (`map[string]memoryItem`) are association lists; map iteration
  order, which Go leaves unspecified, is the list order.
* Fallible Go calls return an explicit error component (`Option String`,
  `none` = the `nil` error).
-/

set_option maxRecDepth 10000

namespace NotionMCP

/-- Go strings treated as character sequences (cache keys, file paths). -/
abbrev GoStr := List Char

/-- One nanosecond-count second (`time.Second`). -/
def secondNS : Int := 1000000000

/-- `time.Minute` in nanoseconds. -/
def minuteNS : Int := 60 * secondNS

/-- `time.Hour` in nanoseconds. -/
def hourNS : Int := 3600 * secondNS

/-! ## SHA-256 (`HashContent`, internal/cache/mcp_cache.go)

`HashContent` computes the SHA-256 digest of a byte slice and returns it
hex-encoded.  The FIPS-180-4 algorithm is embedded over `Nat` with explicit
reduction modulo `2^32`. -/

/-- Truncation to a 32-bit word. -/
def w32 (x : Nat) : Nat := x % 4294967296

/-- Right rotation of a 32-bit word by `n` bits. -/
def rotr (n x : Nat) : Nat := x / 2 ^ n + x % 2 ^ n * 2 ^ (32 - n)

/-- SHA-256 `Ch` function (complement taken inside 32 bits). -/
def shaCh (x y z : Nat) : Nat := (x &&& y) ^^^ ((x ^^^ 4294967295) &&& z)

/-- SHA-256 `Maj` function. -/
def shaMaj (x y z : Nat) : Nat := (x &&& y) ^^^ (x &&& z) ^^^ (y &&& z)

/-- SHA-256 `Σ0`. -/
def bigSigma0 (x : Nat) : Nat := rotr 2 x ^^^ rotr 13 x ^^^ rotr 22 x

/-- SHA-256 `Σ1`. -/
def bigSigma1 (x : Nat) : Nat := rotr 6 x ^^^ rotr 11 x ^^^ rotr 25 x

/-- SHA-256 `σ0`. -/
def smallSigma0 (x : Nat) : Nat := rotr 7 x ^^^ rotr 18 x ^^^ x / 2 ^ 3

/-- SHA-256 `σ1`. -/
def smallSigma1 (x : Nat) : Nat := rotr 17 x ^^^ rotr 19 x ^^^ x / 2 ^ 10

/-- The 64 SHA-256 round constants (decimal). -/
def shaK : List Nat :=
  [1116352408, 1899447441, 3049323471, 3921009573,
   961987163, 1508970993, 2453635748, 2870763221,
   3624381080, 310598401, 607225278, 1426881987,
   1925078388, 2162078206, 2614888103, 3248222580,
   3835390401, 4022224774, 264347078, 604807628,
   770255983, 1249150122, 1555081692, 1996064986,
   2554220882, 2821834349, 2952996808, 3210313671,
   3336571891, 3584528711, 113926993, 338241895,
   666307205, 773529912, 1294757372, 1396182291,
   1695183700, 1986661051, 2177026350, 2456956037,
   2730485921, 2820302411, 3259730800, 3345764771,
   3516065817, 3600352804, 4094571909, 275423344,
   430227734, 506948616, 659060556, 883997877,
   958139571, 1322822218, 1537002063, 1747873779,
   1955562222, 2024104815, 2227730452, 2361852424,
   2428436474, 2756734187, 3204031479, 3329325298]

/-- The eight SHA-256 working registers. -/
structure Hash8 where
  a : Nat
  b : Nat
  c : Nat
  d : Nat
  e : Nat
  f : Nat
  g : Nat
  h : Nat
  deriving DecidableEq, Repr

/-- The SHA-256 initial hash value (decimal). -/
def shaH0 : Hash8 :=
  ⟨1779033703, 3144134277, 1013904242, 2773480762,
   1359893119, 2600822924, 528734635, 1541459225⟩

/-- Big-endian byte decomposition of a 64-bit length field. -/
def be64 (n : Nat) : List Nat :=
  [n / 2 ^ 56 % 256, n / 2 ^ 48 % 256, n / 2 ^ 40 % 256, n / 2 ^ 32 % 256,
   n / 2 ^ 24 % 256, n / 2 ^ 16 % 256, n / 2 ^ 8 % 256, n % 256]

/-- SHA-256 message padding: `0x80`, zeros to 56 mod 64, 8-byte bit length. -/
def shaPad (msg : List Nat) : List Nat :=
  msg ++ 128 :: List.replicate ((119 - msg.length % 64) % 64) 0 ++ be64 (8 * msg.length)

/-- Pack consecutive byte quadruples into big-endian 32-bit words. -/
def packWords : List Nat → List Nat
  | b0 :: b1 :: b2 :: b3 :: rest => (((b0 * 256 + b1) * 256 + b2) * 256 + b3) :: packWords rest
  | _ => []

/-- Extend the 16-word message schedule by `n` further words. -/
def extendSchedule : List Nat → Nat → List Nat
  | ws, 0 => ws
  | ws, n + 1 =>
    extendSchedule
      (ws ++ [w32 (smallSigma1 (ws.getD (ws.length - 2) 0) + ws.getD (ws.length - 7) 0 +
                   smallSigma0 (ws.getD (ws.length - 15) 0) + ws.getD (ws.length - 16) 0)]) n

/-- One SHA-256 compression round. -/
def shaRound (s : Hash8) (w k : Nat) : Hash8 :=
  let t1 := w32 (s.h + bigSigma1 s.e + shaCh s.e s.f s.g + k + w)
  let t2 := w32 (bigSigma0 s.a + shaMaj s.a s.b s.c)
  ⟨w32 (t1 + t2), s.a, s.b, s.c, w32 (s.d + t1), s.e, s.f, s.g⟩

/-- Compress one 64-byte block into the running hash state. -/
def compressBlock (h : Hash8) (block : List Nat) : Hash8 :=
  let ws := extendSchedule (packWords block) 48
  let s := (ws.zip shaK).foldl (fun st wk => shaRound st wk.1 wk.2) h
  ⟨w32 (h.a + s.a), w32 (h.b + s.b), w32 (h.c + s.c), w32 (h.d + s.d),
   w32 (h.e + s.e), w32 (h.f + s.f), w32 (h.g + s.g), w32 (h.h + s.h)⟩

/-- Compress the padded message 64-byte block by 64-byte block.  The first
argument is structural-recursion fuel (the padded length suffices). -/
def shaCompressAll : Nat → Hash8 → List Nat → Hash8
  | 0, h, _ => h
  | _ + 1, h, [] => h
  | n + 1, h, l => shaCompressAll n (compressBlock h (l.take 64)) (l.drop 64)

/-- Big-endian bytes of one 32-bit word. -/
def wordBytes (w : Nat) : List Nat :=
  [w / 2 ^ 24 % 256, w / 2 ^ 16 % 256, w / 2 ^ 8 % 256, w % 256]

/-- `crypto/sha256.Sum256`: the 32 digest bytes of a message. -/
def sha256 (msg : List Nat) : List Nat :=
  let p := shaPad msg
  let fin := shaCompressAll p.length shaH0 p
  wordBytes fin.a ++ wordBytes fin.b ++ wordBytes fin.c ++ wordBytes fin.d ++
  wordBytes fin.e ++ wordBytes fin.f ++ wordBytes fin.g ++ wordBytes fin.h

/-- Lower-case hex alphabet (`encoding/hex`). -/
def hexChars : List Char := "0123456789abcdef".data

/-- Two hex characters of one byte. -/
def hexByte (b : Nat) : List Char := [hexChars.getD (b / 16) '0', hexChars.getD (b % 16) '0']

/-- `HashContent` (internal/cache/mcp_cache.go): hex-encoded SHA-256 digest. -/
def HashContent (data : List Nat) : String :=
  String.mk ((sha256 data).map hexByte).flatten

/-! ## Memory tier (`memoryCache`, internal/cache/memory.go)

The `map[string]memoryItem` is an association list; each operation takes the
current instant `now : Int` in place of its `time.Now()` calls.  `Get`, `Set`,
`Has`, `Delete` return their Go error value explicitly (always `nil` for this
tier, written `none`). -/

/-- `memoryItem`: a stored value with its absolute expiry instant. -/
structure MemoryItem where
  value : List Nat
  expiresAt : Int
  deriving DecidableEq, Repr

/-- `Stats`: cache statistics. -/
structure Stats where
  hits : Int
  misses : Int
  items : Nat
  bytesUsed : Int
  deriving DecidableEq, Repr

/-- `memoryCache`: items map, statistics and capacity bound. -/
structure MemoryCache where
  items : List (GoStr × MemoryItem)
  stats : Stats
  maxSize : Nat
  deriving DecidableEq, Repr

/-- Go map read `m.items[key]`. -/
def lookupItem : List (GoStr × MemoryItem) → GoStr → Option MemoryItem
  | [], _ => none
  | (k', v) :: rest, k => if k' = k then some v else lookupItem rest k

/-- Go map write `m.items[key] = v` (replaces an existing binding). -/
def insertItem : List (GoStr × MemoryItem) → GoStr → MemoryItem → List (GoStr × MemoryItem)
  | [], k, v => [(k, v)]
  | (k', v') :: rest, k, v =>
    if k' = k then (k, v) :: rest else (k', v') :: insertItem rest k v

/-- Go map delete `delete(m.items, key)`. -/
def eraseItem : List (GoStr × MemoryItem) → GoStr → List (GoStr × MemoryItem)
  | [], _ => []
  | (k', v') :: rest, k => if k' = k then rest else (k', v') :: eraseItem rest k

/-- `evictOldest`: drop the entry with the smallest `expiresAt` (Go map
iteration order is modelled as list order; the empty-string sentinel of the
source is kept). -/
def evictOldest (items : List (GoStr × MemoryItem)) : List (GoStr × MemoryItem) :=
  let best := items.foldl
    (fun (acc : GoStr × Int) p =>
      if acc.1 = [] ∨ p.2.expiresAt < acc.2 then (p.1, p.2.expiresAt) else acc)
    ([], 0)
  if best.1 ≠ [] then eraseItem items best.1 else items

/-- `memoryCache.Get`: `((value, error), new state)`. -/
def memGet (m : MemoryCache) (now : Int) (key : GoStr) :
    (Option (List Nat) × Option String) × MemoryCache :=
  match lookupItem m.items key with
  | none =>
    ((none, none), { m with stats := { m.stats with misses := m.stats.misses + 1 } })
  | some item =>
    if now > item.expiresAt then
      ((none, none),
       { m with items := eraseItem m.items key,
                stats := { m.stats with misses := m.stats.misses + 1 } })
    else
      ((some item.value, none), { m with stats := { m.stats with hits := m.stats.hits + 1 } })

/-- `memoryCache.Set`: `(error, new state)`. -/
def memSet (m : MemoryCache) (now : Int) (key : GoStr) (value : List Nat) (ttl : Int) :
    Option String × MemoryCache :=
  let m1 := if m.items.length ≥ m.maxSize then { m with items := evictOldest m.items } else m
  let items2 := insertItem m1.items key ⟨value, now + ttl⟩
  (none,
   { m1 with items := items2,
             stats := { m1.stats with items := items2.length,
                                      bytesUsed := m1.stats.bytesUsed + value.length } })

/-- `memoryCache.Delete`: `(error, new state)`. -/
def memDelete (m : MemoryCache) (key : GoStr) : Option String × MemoryCache :=
  match lookupItem m.items key with
  | none => (none, m)
  | some item =>
    let items2 := eraseItem m.items key
    (none,
     { m with items := items2,
              stats := { m.stats with bytesUsed := m.stats.bytesUsed - item.value.length,
                                      items := items2.length } })

/-- `memoryCache.Has`: `((present, error), new state)`. -/
def memHas (m : MemoryCache) (now : Int) (key : GoStr) :
    (Bool × Option String) × MemoryCache :=
  match lookupItem m.items key with
  | none => ((false, none), m)
  | some item =>
    if now > item.expiresAt then
      ((false, none), { m with items := eraseItem m.items key })
    else
      ((true, none), m)

/-! ## Unix path semantics (`path/filepath.Base`, `Join`, `Clean`)

`fileCache.cachePath` calls `filepath.Base` and `filepath.Join`; their Unix
semantics are embedded here over `GoStr`.  `Clean` is implemented in the
standard element form: split on `/`, drop empty and `.` elements, resolve
`..` against a stack (popping is disabled at the root; a relative path keeps
leading `..` elements), then rebuild the string. -/

/-- Strip trailing `/` separators (the first loop of `filepath.Base`). -/
def dropTrailingSeps (p : GoStr) : GoStr :=
  (p.reverse.dropWhile (fun c => c = '/')).reverse

/-- The suffix after the last `/` (the `strings.LastIndex` step of `Base`). -/
def lastElem (p : GoStr) : GoStr :=
  (p.reverse.takeWhile (fun c => ¬ c = '/')).reverse

/-- `filepath.Base`: last element of the path; `"."` for empty input, `"/"`
for an all-separator input. -/
def goBase (p : GoStr) : GoStr :=
  if p = [] then ['.']
  else
    let p2 := lastElem (dropTrailingSeps p)
    if p2 = [] then ['/'] else p2

/-- Split on `/`, keeping empty fields. -/
def splitSep : GoStr → List GoStr
  | [] => [[]]
  | c :: rest =>
    if c = '/' then [] :: splitSep rest
    else
      match splitSep rest with
      | [] => [[c]]
      | w :: ws => (c :: w) :: ws

/-- Whether the path is rooted (begins with `/`). -/
def isRooted (p : GoStr) : Bool := p.head? = some '/'

/-- One element of `Clean` processing over a head-first stack. -/
def cleanStep (rooted : Bool) (stack : List GoStr) (e : GoStr) : List GoStr :=
  if e = [] ∨ e = ['.'] then stack
  else if e = ['.', '.'] then
    match stack with
    | [] => if rooted then [] else [['.', '.']]
    | top :: rest => if top = ['.', '.'] then ['.', '.'] :: top :: rest else rest
  else e :: stack

/-- The cleaned element list of a path, in order. -/
def cleanElems (rooted : Bool) (es : List GoStr) : List GoStr :=
  (es.foldl (cleanStep rooted) []).reverse

/-- Join elements with `/`. -/
def joinSep (es : List GoStr) : GoStr := (es.intersperse ['/']).flatten

/-- `filepath.Clean` (Unix). -/
def goClean (p : GoStr) : GoStr :=
  let es := cleanElems (isRooted p) (splitSep p)
  if isRooted p then '/' :: joinSep es
  else if es = [] then ['.'] else joinSep es

/-- `filepath.Join` of two elements: drop empty arguments, then `Clean`. -/
def goJoin (a b : GoStr) : GoStr :=
  if a = [] ∧ b = [] then []
  else if a = [] then goClean b
  else if b = [] then goClean a
  else goClean (a ++ '/' :: b)

/-- The cleaned element list of a whole path. -/
def pathElems (p : GoStr) : List GoStr := cleanElems (isRooted p) (splitSep p)

/-! ## Durable tier (`fileCache`, internal/cache/file.go)

The file system is a map from paths to stored records.  `encoding/json`
marshalling of `fileCacheItem` is modelled as the identity round-trip: a file
written by `Set` holds exactly the `{value, expiresAt}` record (read errors
other than absence, and corrupted files, are outside the model). -/

/-- `fileCacheItem`: the serialized `{value, expires_at}` record. -/
structure FileItem where
  value : List Nat
  expiresAt : Int
  deriving DecidableEq, Repr

/-- The modelled file system under the cache directory. -/
def FS : Type := GoStr → Option FileItem

/-- `fileCache.cachePath`: `filepath.Join(fc.dir, filepath.Base(key) + ".cache")`. -/
def cachePath (dir key : GoStr) : GoStr :=
  let safeKey := goBase key
  goJoin dir (safeKey ++ ".cache".data)

/-- `fileCache.Get`: `((value, error), new file system)`. -/
def fileGet (fs : FS) (now : Int) (dir key : GoStr) :
    (Option (List Nat) × Option String) × FS :=
  let path := cachePath dir key
  match fs path with
  | none => ((none, none), fs)
  | some item =>
    if now > item.expiresAt then
      ((none, none), fun p => if p = path then none else fs p)
    else
      ((some item.value, none), fs)

/-- `fileCache.Set`: writes the serialized item; `(error, new file system)`. -/
def fileSet (fs : FS) (now : Int) (dir key : GoStr) (value : List Nat) (ttl : Int) :
    Option String × FS :=
  let path := cachePath dir key
  (none, fun p => if p = path then some ⟨value, now + ttl⟩ else fs p)

/-- `fileCache.Delete`: removes the file; `(error, new file system)`. -/
def fileDelete (fs : FS) (dir key : GoStr) : Option String × FS :=
  let path := cachePath dir key
  (none, fun p => if p = path then none else fs p)

/-- `fileCache.Has`: `((present, error), new file system)`. -/
def fileHas (fs : FS) (now : Int) (dir key : GoStr) :
    (Bool × Option String) × FS :=
  let path := cachePath dir key
  match fs path with
  | none => ((false, none), fs)
  | some item =>
    if now > item.expiresAt then
      ((false, none), fun p => if p = path then none else fs p)
    else
      ((true, none), fs)

/-! ## Layered cache (`layeredCache`, internal/cache/layered.go)

L1 is the memory tier, L2 the file tier rooted at the configured directory
`dir`.  The state is the pair of tier states. -/

/-- The layered-cache state: memory tier and durable tier. -/
abbrev Layered := MemoryCache × FS

/-- `layeredCache.Get`: try L1; on miss try L2 and promote a hit into L1
with a 5-minute TTL.  Returns `((value, error), new state)`. -/
def layeredGet (st : Layered) (now : Int) (dir key : GoStr) :
    (Option (List Nat) × Option String) × Layered :=
  let ((v1, e1), m') := memGet st.1 now key
  match e1 with
  | some err => ((none, some err), (m', st.2))
  | none =>
    match v1 with
    | some v => ((some v, none), (m', st.2))
    | none =>
      let ((v2, e2), fs') := fileGet st.2 now dir key
      match e2 with
      | some err => ((none, some err), (m', fs'))
      | none =>
        match v2 with
        | some v =>
          let (_, m'') := memSet m' now key v (5 * minuteNS)
          ((some v, none), (m'', fs'))
        | none => ((none, none), (m', fs'))

/-- `layeredCache.Set`: write to L1 with `ttl`, then to L2 with the same
`ttl` (an L2 error would be ignored).  Returns `(error, new state)`. -/
def layeredSet (st : Layered) (now : Int) (dir key : GoStr) (value : List Nat) (ttl : Int) :
    Option String × Layered :=
  let (e1, m') := memSet st.1 now key value ttl
  match e1 with
  | some err => (some err, (m', st.2))
  | none =>
    let (_, fs') := fileSet st.2 now dir key value ttl
    (none, (m', fs'))

/-! ## Refresh manager (`MCPCache.refreshOnce`, internal/cache/mcp_cache.go)

`refreshOnce` is embedded at the point after the `fetcher(ctx)` call has
produced its result (`Except` mirrors the `([]byte, error)` pair); the cache
it drives is the layered cache built by `NewCache`.  Logging is effect-free
and omitted; the function returns only the new cache state — a fetch error
is not propagated. -/

/-- `refreshOnce`: fetch result in hand, update the cache only if content
changed. -/
def refreshOnce (st : Layered) (now : Int) (dir key : GoStr)
    (fetchResult : Except String (List Nat)) : Layered :=
  match fetchResult with
  | .error _ => st
  | .ok newData =>
    let ((existing, err), st') := layeredGet st now dir key
    match err, existing with
    | none, some existingData =>
      if HashContent newData = HashContent existingData then st'
      else (layeredSet st' now dir key newData hourNS).2
    | _, _ => (layeredSet st' now dir key newData hourNS).2

/-! ## Upstream client (`Client`, internal/notion/client.go)

### Pagination (`QueryDatabase`)

The upstream is modelled as the sequence of `queryResponse` values the
successive requests receive, in request order.  Besides the accumulated
pages, the embedding records the `start_cursor` carried by each request
body (`none` = the empty request body `{}`). -/

/-- A Notion page (contents irrelevant to pagination). -/
structure Page where
  id : String
  deriving DecidableEq, Repr

/-- `queryResponse`: one page of results. -/
structure QueryResponse where
  results : List Page
  hasMore : Bool
  nextCursor : Option String
  deriving DecidableEq, Repr

/-- The pagination loop of `QueryDatabase`: `cursor` is the cursor the next
request will carry, `upstream` the responses still to be received.  Returns
`(accumulated pages, cursors sent)`; `none` if the loop would request more
responses than the upstream sequence provides. -/
def queryPages : Option String → List QueryResponse → Option (List Page × List (Option String))
  | _, [] => none
  | cursor, r :: rest =>
    if r.hasMore = false then some (r.results, [cursor])
    else
      match r.nextCursor with
      | none => some (r.results, [cursor])
      | some c =>
        match queryPages (some c) rest with
        | none => none
        | some (ps, sent) => some (r.results ++ ps, cursor :: sent)

/-- `Client.QueryDatabase` alias `FetchAllItems`: start with no cursor. -/
def QueryDatabase (upstream : List QueryResponse) : Option (List Page) :=
  (queryPages none upstream).map (·.1)

/-- Whether a response terminates the pagination loop: `hasMore` false, or no
`nextCursor` (the defensive guard). -/
def stopsResp (r : QueryResponse) : Bool := !r.hasMore || r.nextCursor.isNone

/-- The prefix of the upstream sequence the loop consumes: everything up to
and including the first terminating response (`none` if no response
terminates). -/
def consumedPrefix : List QueryResponse → Option (List QueryResponse)
  | [] => none
  | r :: rest =>
    if stopsResp r then some [r] else (consumedPrefix rest).map (r :: ·)

/-- The cursors the successive requests carry, starting from `c`: each
request after the first carries the previous response's `nextCursor`. -/
def cursorTrace : Option String → List QueryResponse → List (Option String)
  | _, [] => []
  | c, r :: rest => c :: cursorTrace r.nextCursor rest

/-! ### Retry loop (`doRequest`)

Each attempt consumes one `HTTPEvent`: either a transport error carrying its
message, or an HTTP response with status, `Retry-After` header (`""` =
absent), decoded upstream error message/code, and whether the success body
unmarshals into the target (`decodeOk`).  Sleeps are returned as the list of
slept durations in nanoseconds.  `time.ParseDuration(retryAfter + "s")` is
modelled for integral-second hints: a nonempty all-digit header parses to
that many seconds, anything else fails to parse. -/

/-- `searchStr`: naive substring scan. -/
def searchStr (s substr : List Char) : Bool :=
  (List.range (s.length - substr.length + 1)).any
    (fun i => (s.drop i).take substr.length == substr)

/-- `contains`: length guard plus scan. -/
def containsStr (s substr : String) : Bool :=
  s.data.length ≥ substr.data.length && searchStr s.data substr.data

/-- `isRetryableError`: transient network errors worth retrying. -/
def isRetryableError (msg : String) : Bool :=
  ["broken pipe", "connection reset", "EOF", "use of closed network connection"].any
    (fun sub => containsStr msg sub)

/-- Decimal value of an all-digit string. -/
def digitsToNat (cs : List Char) : Nat :=
  cs.foldl (fun acc c => acc * 10 + (c.toNat - 48)) 0

/-- `time.ParseDuration(s + "s")` for an integral-seconds hint, in
nanoseconds. -/
def parseRetryAfterSeconds (s : String) : Option Nat :=
  if s.data ≠ [] ∧ s.data.all Char.isDigit then some (digitsToNat s.data * 1000000000)
  else none

/-- One second in nanoseconds, as the `Nat` used by the retry loop. -/
def nsPerSecond : Nat := 1000000000

/-- `maxRetries` of `doRequest`. -/
def maxRetries : Nat := 3

/-- The wait before retrying a 429: the parsed `Retry-After` hint when the
header is present and parses, else the current back-off. -/
def rateLimitWait (retryAfter : String) (backoff : Nat) : Nat :=
  if retryAfter ≠ "" then
    match parseRetryAfterSeconds retryAfter with
    | some d => d
    | none => backoff
  else backoff

/-- One observed outcome of an HTTP attempt. -/
inductive HTTPEvent where
  | netErr (msg : String)
  | resp (status : Nat) (retryAfter : String) (errMessage errCode : String) (decodeOk : Bool)
  deriving DecidableEq, Repr

/-- The result of `doRequest`, one constructor per `return` site. -/
inductive DoResult where
  | ok
  | decodeError
  | apiError (message code : String)
  | requestFailed (msg : String)
  | maxRetriesExceeded
  deriving DecidableEq, Repr

/-- The attempt loop of `doRequest`.  The first argument is the number of
attempts remaining (`maxRetries - attempt`); the result pairs the outcome
with the list of slept durations.  `none` = the event sequence ran out. -/
def doRequestAux : Nat → Nat → List HTTPEvent → Option (DoResult × List Nat)
  | 0, _, _ => some (.maxRetriesExceeded, [])
  | n + 1, backoff, events =>
    match events with
    | [] => none
    | e :: rest =>
      match e with
      | .netErr msg =>
        if isRetryableError msg && decide (0 < n) then
          match doRequestAux n (2 * backoff) rest with
          | none => none
          | some (r, sleeps) => some (r, backoff :: sleeps)
        else some (.requestFailed msg, [])
      | .resp status retryAfter errMessage errCode decodeOk =>
        if status = 429 then
          match doRequestAux n (2 * backoff) rest with
          | none => none
          | some (r, sleeps) => some (r, rateLimitWait retryAfter backoff :: sleeps)
        else if status ≥ 400 then some (.apiError errMessage errCode, [])
        else if decodeOk then some (.ok, [])
        else some (.decodeError, [])

/-- `Client.doRequest`: three attempts starting from a one-second back-off. -/
def doRequest (events : List HTTPEvent) : Option (DoResult × List Nat) :=
  doRequestAux maxRetries nsPerSecond events

/-- The doubling back-off sequence: `n` waits starting from `b`. -/
def geomBackoffs : Nat → Nat → List Nat
  | 0, _ => []
  | n + 1, b => b :: geomBackoffs n (2 * b)

/-- An upstream run of hint-less rate-limit responses. -/
def only429NoHint (es : List HTTPEvent) : Prop :=
  ∀ e ∈ es, ∃ em ec dk, e = HTTPEvent.resp 429 "" em ec dk

/-- Claim C4 as stated (weakest reading): a non-2xx, non-429 response makes
the call fail — in particular it never returns success. -/
def claimC4NonTwoxxAlwaysFails : Prop :=
  ∀ status retryAfter em ec dOk rest n b,
    ¬ (200 ≤ status ∧ status ≤ 299) → status ≠ 429 →
    ∀ ws, doRequestAux (n + 1) b (.resp status retryAfter em ec dOk :: rest) ≠ some (.ok, ws)

/-- Claim C1's equal-digest case as stated: when the fetched bytes hash like
the currently cached bytes, the refresh cycle leaves the stored entry for
the key — including its expiry — unchanged in both tiers. -/
def claimC1EqualDigestLeavesEntryUntouched : Prop :=
  ∀ (st : Layered) (now : Int) (dir key : GoStr) (newData ex : List Nat),
    (layeredGet st now dir key).1.1 = some ex →
    HashContent newData = HashContent ex →
    lookupItem (refreshOnce st now dir key (.ok newData)).1.items key
      = lookupItem st.1.items key
    ∧ (refreshOnce st now dir key (.ok newData)).2 (cachePath dir key)
      = st.2 (cachePath dir key)

/-- The cleaned filename component contributed by `cachePath`: the basename
of the key (its `/` case contributing nothing) suffixed with `.cache`. -/
def fnameOf (key : GoStr) : GoStr :=
  ((goBase key).filter (fun c => ¬ c = '/')) ++ ".cache".data

/-! ## Refresh-task lifecycle (`StartPeriodicRefresh`, internal/cache/mcp_cache.go)

A small-step model, for one cache key, of the Go concurrency in
`StartPeriodicRefresh` and the per-task goroutine loop

```
for { select { case <-ctx.Done(): return
               case <-stopChan:  return
               case <-ticker.C:  m.refreshOnce(...) } }
```

A task is identified by the channel it listens on; channels are numbered by
creation order.  The steps reflect Go semantics: `close(stopChan)` makes the
receive case ready immediately, a ticker fire makes the tick case ready, and
`select` may take ANY ready case — in particular a task whose stop channel
is already closed may still take a ready tick.  `StartPeriodicRefresh` runs
atomically (it holds `m.mu`) and returns without waiting for the old task:
the `startTransition` step closes the old channel, replaces the map entry
and spawns the new goroutine in one step.  The `ctx.Done()` exit is omitted
(no cancellation is exercised here). -/

/-- Observable events of the refresh lifecycle. -/
inductive REvent where
  | started (chan : Nat)
  | ticked (chan : Nat)
  | stopped (chan : Nat)
  deriving DecidableEq, Repr

/-- Global state: the registered stop channel for the key (`stopChans[key]`),
a fresh-channel counter, the closed channels, the running tasks (channel id,
whether a ticker fire is pending), and the event trace. -/
structure RefreshSys where
  registered : Option Nat
  nextChan : Nat
  closed : List Nat
  tasks : List (Nat × Bool)
  trace : List REvent
  deriving DecidableEq, Repr

/-- The initial state: no task, nothing closed. -/
def rinit : RefreshSys := ⟨none, 0, [], [], []⟩

/-- The body of `StartPeriodicRefresh`: close and drop any registered stop
channel, register a fresh one and spawn its goroutine.  No waiting. -/
def startTransition (s : RefreshSys) : RefreshSys :=
  { registered := some s.nextChan
    nextChan := s.nextChan + 1
    closed := match s.registered with
              | some c => c :: s.closed
              | none => s.closed
    tasks := (s.nextChan, false) :: s.tasks
    trace := s.trace ++ [.started s.nextChan] }

/-- Mark a ticker fire pending for task `c`. -/
def fireTick (tasks : List (Nat × Bool)) (c : Nat) : List (Nat × Bool) :=
  tasks.map (fun p => if p.1 = c then (c, true) else p)

/-- Consume the pending tick of task `c`. -/
def clearTick (tasks : List (Nat × Bool)) (c : Nat) : List (Nat × Bool) :=
  tasks.map (fun p => if p.1 = c then (c, false) else p)

/-- Remove task `c` (its goroutine returned). -/
def removeTask (tasks : List (Nat × Bool)) (c : Nat) : List (Nat × Bool) :=
  tasks.filter (fun p => p.1 ≠ c)

/-- One interleaving step of the system. -/
inductive RStep : RefreshSys → RefreshSys → Prop where
  /-- A call to `StartPeriodicRefresh` for the key. -/
  | start (s : RefreshSys) : RStep s (startTransition s)
  /-- The ticker of running task `c` fires. -/
  | tickFire (s : RefreshSys) (c : Nat) (h : (c, false) ∈ s.tasks) :
      RStep s { s with tasks := fireTick s.tasks c }
  /-- Task `c` selects its ready tick case and runs `refreshOnce` — legal
  whenever the tick is ready, even if the task's stop channel is closed. -/
  | runTick (s : RefreshSys) (c : Nat) (h : (c, true) ∈ s.tasks) :
      RStep s { s with tasks := clearTick s.tasks c, trace := s.trace ++ [.ticked c] }
  /-- Task `c` selects its closed stop channel and returns. -/
  | observeStop (s : RefreshSys) (c : Nat) (p : Bool)
      (h : (c, p) ∈ s.tasks) (hc : c ∈ s.closed) :
      RStep s { s with tasks := removeTask s.tasks c, trace := s.trace ++ [.stopped c] }

/-- Finitely many interleaving steps. -/
inductive RSteps : RefreshSys → RefreshSys → Prop where
  | refl (s : RefreshSys) : RSteps s s
  | tail {a b c : RefreshSys} : RSteps a b → RStep b c → RSteps a c

/-- Reachability from the initial state. -/
def RReachable (s : RefreshSys) : Prop := RSteps rinit s

/-- The claim under test for C8: on every reachable trace, once a newer
refresh task has started, no task started earlier ever ticks again. -/
def noTickAfterNewerStart (tr : List REvent) : Prop :=
  ∀ pre c' mid, tr = pre ++ REvent.started c' :: mid →
    ∀ c, REvent.started c ∈ pre → REvent.ticked c ∉ mid

/-- Claim C8 as stated (its temporal part): on every reachable trace no task
ticks after a newer task has started. -/
def claimC8OldTaskNeverTicksAfterNewStart : Prop :=
  ∀ s, RReachable s → noTickAfterNewerStart s.trace

/-- The inductive invariant of the refresh lifecycle: every running task's
channel is below the counter and, unless the task has been signalled, is the
registered one; the registered channel is below the counter; a task that has
stopped is gone for good; and no task ticks after its `stopped` event. -/
def TasksInv (s : RefreshSys) : Prop :=
  (∀ c b, (c, b) ∈ s.tasks → c < s.nextChan ∧ (c ∉ s.closed → s.registered = some c))
  ∧ (∀ c, s.registered = some c → c < s.nextChan)
  ∧ (∀ c, REvent.stopped c ∈ s.trace → (∀ b, (c, b) ∉ s.tasks) ∧ c < s.nextChan)
  ∧ (∀ pre c mid, s.trace = pre ++ REvent.stopped c :: mid → REvent.ticked c ∉ mid)

/-! ## Association-list and tier lemmas -/

theorem lookupItem_insertItem_self (l : List (GoStr × MemoryItem)) (k : GoStr) (v : MemoryItem) :
    lookupItem (insertItem l k v) k = some v := by
  induction l with
  | nil => simp [insertItem, lookupItem]
  | cons p rest ih =>
    obtain ⟨k', v'⟩ := p
    by_cases h : k' = k
    · simp [insertItem, h, lookupItem]
    · simp [insertItem, h, lookupItem, ih]

theorem lookupItem_eq_none_of_not_mem (l : List (GoStr × MemoryItem)) (k : GoStr)
    (h : k ∉ l.map Prod.fst) : lookupItem l k = none := by
  induction l with
  | nil => rfl
  | cons p rest ih =>
    obtain ⟨k', v'⟩ := p
    simp only [List.map_cons, List.mem_cons] at h
    push_neg at h
    have hk : ¬ k' = k := fun he => h.1 he.symm
    simp [lookupItem, hk, ih h.2]

theorem lookupItem_eraseItem_self (l : List (GoStr × MemoryItem)) (k : GoStr)
    (hnd : (l.map Prod.fst).Nodup) : lookupItem (eraseItem l k) k = none := by
  induction l with
  | nil => rfl
  | cons p rest ih =>
    obtain ⟨k', v'⟩ := p
    simp only [List.map_cons, List.nodup_cons] at hnd
    by_cases h : k' = k
    · subst h
      simpa [eraseItem] using lookupItem_eq_none_of_not_mem rest k' hnd.1
    · simp [eraseItem, h, lookupItem, ih hnd.2]

theorem eraseItem_sublist (l : List (GoStr × MemoryItem)) (k : GoStr) :
    (eraseItem l k).Sublist l := by
  induction l with
  | nil => simp [eraseItem]
  | cons p rest ih =>
    obtain ⟨k', v'⟩ := p
    by_cases h : k' = k
    · rw [eraseItem, if_pos h]
      exact List.sublist_cons_self (k', v') rest
    · rw [eraseItem, if_neg h]
      exact List.Sublist.cons₂ (k', v') ih

theorem insertItem_keys_subset (l : List (GoStr × MemoryItem)) (k : GoStr) (v : MemoryItem) :
    ((insertItem l k v).map Prod.fst) ⊆ k :: l.map Prod.fst := by
  induction l with
  | nil => simp [insertItem]
  | cons p rest ih =>
    obtain ⟨k', v'⟩ := p
    by_cases h : k' = k
    · rw [insertItem, if_pos h]
      intro a ha
      rcases List.mem_cons.mp ha with ha | ha
      · exact List.mem_cons.mpr (Or.inl ha)
      · exact List.mem_cons.mpr (Or.inr (List.mem_cons.mpr (Or.inr ha)))
    · rw [insertItem, if_neg h]
      intro a ha
      rcases List.mem_cons.mp ha with ha | ha
      · exact List.mem_cons.mpr (Or.inr (List.mem_cons.mpr (Or.inl ha)))
      · rcases List.mem_cons.mp (ih ha) with ha | ha
        · exact List.mem_cons.mpr (Or.inl ha)
        · exact List.mem_cons.mpr (Or.inr (List.mem_cons.mpr (Or.inr ha)))

theorem insertItem_keys_nodup (l : List (GoStr × MemoryItem)) (k : GoStr) (v : MemoryItem)
    (hnd : (l.map Prod.fst).Nodup) : ((insertItem l k v).map Prod.fst).Nodup := by
  induction l with
  | nil => simp [insertItem]
  | cons p rest ih =>
    obtain ⟨k', v'⟩ := p
    simp only [List.map_cons, List.nodup_cons] at hnd
    by_cases h : k' = k
    · rw [insertItem, if_pos h]
      simp only [List.map_cons, List.nodup_cons]
      subst h
      exact hnd
    · rw [insertItem, if_neg h]
      simp only [List.map_cons, List.nodup_cons]
      refine ⟨fun hmem => ?_, ih hnd.2⟩
      rcases List.mem_cons.mp (insertItem_keys_subset rest k v hmem) with he | he
      · exact h he
      · exact hnd.1 he

theorem eraseItem_keys_nodup (l : List (GoStr × MemoryItem)) (k : GoStr)
    (hnd : (l.map Prod.fst).Nodup) : ((eraseItem l k).map Prod.fst).Nodup :=
  hnd.sublist ((eraseItem_sublist l k).map Prod.fst)

theorem evictOldest_keys_nodup (l : List (GoStr × MemoryItem))
    (hnd : (l.map Prod.fst).Nodup) : ((evictOldest l).map Prod.fst).Nodup := by
  simp only [evictOldest]
  split
  · exact eraseItem_keys_nodup _ _ hnd
  · exact hnd

theorem memSet_lookup (m : MemoryCache) (now : Int) (key : GoStr) (value : List Nat) (ttl : Int) :
    lookupItem ((memSet m now key value ttl).2.items) key = some ⟨value, now + ttl⟩ := by
  unfold memSet
  exact lookupItem_insertItem_self _ key _

theorem memSet_keys_nodup (m : MemoryCache) (now : Int) (key : GoStr) (value : List Nat)
    (ttl : Int) (hnd : (m.items.map Prod.fst).Nodup) :
    (((memSet m now key value ttl).2.items).map Prod.fst).Nodup := by
  unfold memSet
  split
  · exact insertItem_keys_nodup _ key _ (evictOldest_keys_nodup _ hnd)
  · exact insertItem_keys_nodup _ key _ hnd

theorem memGet_snd_err (m : MemoryCache) (now : Int) (key : GoStr) :
    (memGet m now key).1.2 = none := by
  unfold memGet
  cases lookupItem m.items key with
  | none => rfl
  | some it =>
    by_cases h : now > it.expiresAt <;> simp [h]

theorem fileGet_snd_err (fs : FS) (now : Int) (dir key : GoStr) :
    (fileGet fs now dir key).1.2 = none := by
  simp only [fileGet]
  cases h : fs (cachePath dir key) with
  | none => simp [h]
  | some it =>
    by_cases hex : now > it.expiresAt <;> simp [h, hex]

theorem fileGet_some_fs_unchanged (fs : FS) (now : Int) (dir key : GoStr) (v : List Nat)
    (h : (fileGet fs now dir key).1.1 = some v) : (fileGet fs now dir key).2 = fs := by
  simp only [fileGet] at h ⊢
  cases hf : fs (cachePath dir key) with
  | none => simp [hf] at h
  | some it =>
    by_cases hex : now > it.expiresAt
    · simp [hf, hex] at h
    · simp [hf, hex]

theorem layeredGet_eq (st : Layered) (now : Int) (dir key : GoStr) :
    layeredGet st now dir key =
      match (memGet st.1 now key).1.1 with
      | some v => ((some v, none), ((memGet st.1 now key).2, st.2))
      | none =>
        match (fileGet st.2 now dir key).1.1 with
        | some v =>
          ((some v, none),
           ((memSet (memGet st.1 now key).2 now key v (5 * minuteNS)).2,
            (fileGet st.2 now dir key).2))
        | none => ((none, none), ((memGet st.1 now key).2, (fileGet st.2 now dir key).2)) := by
  unfold layeredGet
  rcases hm : memGet st.1 now key with ⟨⟨v1, e1⟩, m'⟩
  have he1 : e1 = none := by
    have := memGet_snd_err st.1 now key
    rw [hm] at this
    exact this
  subst he1
  cases v1 with
  | some v => rfl
  | none =>
    rcases hf : fileGet st.2 now dir key with ⟨⟨v2, e2⟩, fs'⟩
    have he2 : e2 = none := by
      have := fileGet_snd_err st.2 now dir key
      rw [hf] at this
      exact this
    subst he2
    cases v2 with
    | some v => rfl
    | none => rfl

theorem layeredGet_snd_err (st : Layered) (now : Int) (dir key : GoStr) :
    (layeredGet st now dir key).1.2 = none := by
  rw [layeredGet_eq]
  cases (memGet st.1 now key).1.1 with
  | some v => rfl
  | none =>
    cases (fileGet st.2 now dir key).1.1 with
    | some v => rfl
    | none => rfl

theorem layeredGet_some_fs_unchanged (st : Layered) (now : Int) (dir key : GoStr) (v : List Nat)
    (h : (layeredGet st now dir key).1.1 = some v) : (layeredGet st now dir key).2.2 = st.2 := by
  rw [layeredGet_eq] at h ⊢
  cases hm : (memGet st.1 now key).1.1 with
  | some w => simp [hm] at h ⊢
  | none =>
    cases hf : (fileGet st.2 now dir key).1.1 with
    | some w =>
      simp only [hm, hf] at h ⊢
      exact fileGet_some_fs_unchanged st.2 now dir key w hf
    | none => simp [hm, hf] at h

theorem refreshOnce_ok_eq (st : Layered) (now : Int) (dir key : GoStr) (newData : List Nat) :
    refreshOnce st now dir key (.ok newData) =
      match (layeredGet st now dir key).1.1 with
      | none => (layeredSet (layeredGet st now dir key).2 now dir key newData hourNS).2
      | some existingData =>
        if HashContent newData = HashContent existingData then (layeredGet st now dir key).2
        else (layeredSet (layeredGet st now dir key).2 now dir key newData hourNS).2 := by
  unfold refreshOnce
  rcases hg : layeredGet st now dir key with ⟨⟨ex, err⟩, st'⟩
  have herr : err = none := by
    have := layeredGet_snd_err st now dir key
    rw [hg] at this
    exact this
  subst herr
  cases ex with
  | some v => rfl
  | none => rfl

theorem layeredSet_mem_lookup (st : Layered) (now : Int) (dir key : GoStr) (value : List Nat)
    (ttl : Int) :
    lookupItem ((layeredSet st now dir key value ttl).2.1.items) key = some ⟨value, now + ttl⟩ := by
  unfold layeredSet
  exact memSet_lookup st.1 now key value ttl

theorem layeredSet_fs_lookup (st : Layered) (now : Int) (dir key : GoStr) (value : List Nat)
    (ttl : Int) :
    (layeredSet st now dir key value ttl).2.2 (cachePath dir key) = some ⟨value, now + ttl⟩ := by
  unfold layeredSet fileSet
  simp [memSet]

/-! ## Claim C5 -/

/-- C5: for every key, if the fetch invoked by a refresh cycle returns an
error, `refreshOnce` performs no cache write at all — the whole cache state
(both tiers, every entry with its expiry) is returned untouched — and the
error is only logged, never propagated (the embedded `refreshOnce` returns
only a cache state; there is no error channel to the caller). -/
theorem C5_refresh_fetch_error_leaves_cache_untouched
    (st : Layered) (now : Int) (dir key : GoStr) (msg : String) :
    refreshOnce st now dir key (.error msg) = st := rfl

/-! ## Claim C6 -/

/-- C6: in both the memory tier and the durable file tier, `Get` on a key
whose `expiresAt` has passed returns "not found" — a `nil` value with a
`nil` error — and removes the expired entry from the tier as a side effect;
`Get` on an absent key likewise returns "not found" with a `nil` error.
(For the memory tier's removal, the Go-map representation invariant — no
duplicate keys in the association list — is assumed.) -/
theorem C6_expired_or_absent_get_not_found
    (m : MemoryCache) (fs : FS) (now : Int) (dir key : GoStr) :
    (lookupItem m.items key = none → (memGet m now key).1 = (none, none))
    ∧ (∀ it, lookupItem m.items key = some it → now > it.expiresAt →
        (memGet m now key).1 = (none, none)
        ∧ ((m.items.map Prod.fst).Nodup →
            lookupItem (memGet m now key).2.items key = none))
    ∧ (fs (cachePath dir key) = none → (fileGet fs now dir key).1 = (none, none))
    ∧ (∀ it, fs (cachePath dir key) = some it → now > it.expiresAt →
        (fileGet fs now dir key).1 = (none, none)
        ∧ (fileGet fs now dir key).2 (cachePath dir key) = none) := by
  refine ⟨fun h => ?_, fun it h hex => ⟨?_, fun hnd => ?_⟩, fun h => ?_, fun it h hex => ⟨?_, ?_⟩⟩
  · simp [memGet, h]
  · simp [memGet, h, hex]
  · simp only [memGet, h, if_pos hex]
    exact lookupItem_eraseItem_self m.items key hnd
  · simp [fileGet, h]
  · simp [fileGet, h, hex]
  · simp [fileGet, h, hex]

/-- Witness for C6: a concrete expired entry in each tier and a concrete
absent key, all at instant 11 with expiry 10. -/
theorem C6_witness :
    (memGet ⟨[(['a'], ⟨[5], 10⟩)], ⟨0, 0, 1, 1⟩, 10000⟩ 11 ['a']).1 = (none, none)
    ∧ lookupItem (memGet ⟨[(['a'], ⟨[5], 10⟩)], ⟨0, 0, 1, 1⟩, 10000⟩ 11 ['a']).2.items ['a'] = none
    ∧ (memGet ⟨[], ⟨0, 0, 0, 0⟩, 10000⟩ 11 ['a']).1 = (none, none)
    ∧ (fileGet (fun p => if p = cachePath "/d".data ['a'] then some ⟨[5], 10⟩ else none)
         11 "/d".data ['a']).1 = (none, none)
    ∧ (fileGet (fun p => if p = cachePath "/d".data ['a'] then some ⟨[5], 10⟩ else none)
         11 "/d".data ['a']).2 (cachePath "/d".data ['a']) = none
    ∧ (fileGet (fun _ => none) 11 "/d".data ['a']).1 = (none, none) := by
  have hmem := (C6_expired_or_absent_get_not_found
    ⟨[(['a'], ⟨[5], 10⟩)], ⟨0, 0, 1, 1⟩, 10000⟩ (fun _ => none) 11 "/d".data ['a']).2.1
    ⟨[5], 10⟩ (by decide) (by decide)
  have habs := (C6_expired_or_absent_get_not_found
    ⟨[], ⟨0, 0, 0, 0⟩, 10000⟩ (fun _ => none) 11 "/d".data ['a']).1 (by decide)
  have hfile := (C6_expired_or_absent_get_not_found
    ⟨[], ⟨0, 0, 0, 0⟩, 10000⟩
    (fun p => if p = cachePath "/d".data ['a'] then some ⟨[5], 10⟩ else none)
    11 "/d".data ['a']).2.2.2 ⟨[5], 10⟩ (by simp) (by decide)
  have hfabs := (C6_expired_or_absent_get_not_found
    ⟨[], ⟨0, 0, 0, 0⟩, 10000⟩ (fun _ => none) 11 "/d".data ['a']).2.2.1 rfl
  exact ⟨hmem.1, hmem.2 (by decide), habs, hfile.1, hfile.2, hfabs⟩

/-! ## Claim C10 -/

/-- C10: `memoryCache.Set` with a zero or negative TTL stores an entry whose
expiry `now + ttl` is not after the insertion instant `now`, so any strictly
later `Get` or `Has` reports "not found" (`nil` value, respectively `false`,
with `nil` error) and removes the entry; the value is never served.  (The
Go-map no-duplicate-keys invariant is assumed for the removal clause.) -/
theorem C10_nonpositive_ttl_never_served
    (m : MemoryCache) (now : Int) (key : GoStr) (value : List Nat) (ttl now' : Int)
    (httl : ttl ≤ 0) (hlt : now < now') (hnd : (m.items.map Prod.fst).Nodup) :
    lookupItem ((memSet m now key value ttl).2.items) key = some ⟨value, now + ttl⟩
    ∧ now + ttl ≤ now
    ∧ (memGet (memSet m now key value ttl).2 now' key).1 = (none, none)
    ∧ lookupItem ((memGet (memSet m now key value ttl).2 now' key).2.items) key = none
    ∧ (memHas (memSet m now key value ttl).2 now' key).1 = (false, none)
    ∧ lookupItem ((memHas (memSet m now key value ttl).2 now' key).2.items) key = none := by
  have hl := memSet_lookup m now key value ttl
  have hnd' := memSet_keys_nodup m now key value ttl hnd
  have hexp : now' > now + ttl := by omega
  refine ⟨hl, by omega, ?_, ?_, ?_, ?_⟩
  · simp [memGet, hl, hexp]
  · simp only [memGet, hl, if_pos hexp]
    exact lookupItem_eraseItem_self _ key hnd'
  · simp [memHas, hl, hexp]
  · simp only [memHas, hl, if_pos hexp]
    exact lookupItem_eraseItem_self _ key hnd'

/-- Witness for C10: storing with TTL 0 at instant 0; the read at instant 1
finds nothing. -/
theorem C10_witness :
    (memGet (memSet ⟨[], ⟨0, 0, 0, 0⟩, 10000⟩ 0 ['k'] [1] 0).2 1 ['k']).1 = (none, none)
    ∧ (memHas (memSet ⟨[], ⟨0, 0, 0, 0⟩, 10000⟩ 0 ['k'] [1] 0).2 1 ['k']).1 = (false, none) := by
  have h := C10_nonpositive_ttl_never_served ⟨[], ⟨0, 0, 0, 0⟩, 10000⟩ 0 ['k'] [1] 0 1
    (by decide) (by decide) (by decide)
  exact ⟨h.2.2.1, h.2.2.2.2.1⟩

/-! ## Claim C7 -/

/-- C7: if a key misses in L1 but the durable tier holds a valid (unexpired)
entry, `layeredCache.Get` returns the L2 value and promotes it into L1 with
the 5-minute default TTL, so that any immediately following `Get` (any
instant within that TTL) is satisfied by L1 alone; if both tiers miss, `Get`
returns "not found" with a `nil` error. -/
theorem C7_layered_get_promotes_l2_hit
    (st : Layered) (now : Int) (dir key : GoStr)
    (hmiss : (memGet st.1 now key).1.1 = none) :
    (∀ it, st.2 (cachePath dir key) = some it → ¬ now > it.expiresAt →
      (layeredGet st now dir key).1 = (some it.value, none)
      ∧ lookupItem (layeredGet st now dir key).2.1.items key
          = some ⟨it.value, now + 5 * minuteNS⟩
      ∧ ∀ now', ¬ now' > now + 5 * minuteNS →
          (memGet (layeredGet st now dir key).2.1 now' key).1 = (some it.value, none))
    ∧ (st.2 (cachePath dir key) = none → (layeredGet st now dir key).1 = (none, none)) := by
  constructor
  · intro it hfs hval
    have hfget : (fileGet st.2 now dir key).1.1 = some it.value := by
      simp [fileGet, hfs, hval]
    have hres : layeredGet st now dir key
        = ((some it.value, none),
           ((memSet (memGet st.1 now key).2 now key it.value (5 * minuteNS)).2,
            (fileGet st.2 now dir key).2)) := by
      rw [layeredGet_eq, hmiss, hfget]
    have hlook : lookupItem (layeredGet st now dir key).2.1.items key
        = some ⟨it.value, now + 5 * minuteNS⟩ := by
      rw [hres]
      exact memSet_lookup _ now key it.value (5 * minuteNS)
    refine ⟨by rw [hres], hlook, fun now' hnow' => ?_⟩
    simp [memGet, hlook, hnow']
  · intro hfs
    have hfget : (fileGet st.2 now dir key).1.1 = none := by
      simp [fileGet, hfs]
    rw [layeredGet_eq, hmiss, hfget]

/-- Witness for C7: empty L1, a valid L2 entry holding `[9]` until instant
100; the promoted read at instant 0 and the follow-up read at instant 1. -/
theorem C7_witness :
    (layeredGet (⟨[], ⟨0, 0, 0, 0⟩, 10000⟩,
        fun p => if p = cachePath "/d".data ['k'] then some ⟨[9], 100⟩ else none)
      0 "/d".data ['k']).1 = (some [9], none)
    ∧ (memGet (layeredGet (⟨[], ⟨0, 0, 0, 0⟩, 10000⟩,
        fun p => if p = cachePath "/d".data ['k'] then some ⟨[9], 100⟩ else none)
      0 "/d".data ['k']).2.1 1 ['k']).1 = (some [9], none)
    ∧ (layeredGet (⟨[], ⟨0, 0, 0, 0⟩, 10000⟩, fun _ => none) 0 "/d".data ['k']).1
        = (none, none) := by
  have h := C7_layered_get_promotes_l2_hit
    (⟨[], ⟨0, 0, 0, 0⟩, 10000⟩,
     fun p => if p = cachePath "/d".data ['k'] then some ⟨[9], 100⟩ else none)
    0 "/d".data ['k'] (by decide)
  have h2 := (h.1 ⟨[9], 100⟩ (by simp) (by decide))
  have hm := C7_layered_get_promotes_l2_hit
    (⟨[], ⟨0, 0, 0, 0⟩, 10000⟩, fun _ => none) 0 "/d".data ['k'] (by decide)
  exact ⟨h2.1, h2.2.2 1 (by decide), hm.2 rfl⟩

/-! ## Claim C2 -/

/-- C2: for every upstream page sequence with a terminating response (the
consumed prefix `pre`), `QueryDatabase` issues the first request with no
cursor, passes each response's `nextCursor` forward into the next request,
stops exactly at the first response with `hasMore` false or without a
cursor, and returns the concatenation of the consumed pages' results in page
order. -/
theorem C2_query_database_pagination
    (rs pre : List QueryResponse) (h : consumedPrefix rs = some pre) :
    (∀ cursor, queryPages cursor rs
      = some (((pre.map QueryResponse.results).flatten), cursorTrace cursor pre))
    ∧ QueryDatabase rs = some ((pre.map QueryResponse.results).flatten) := by
  suffices hs : ∀ (rs pre : List QueryResponse), consumedPrefix rs = some pre →
      ∀ cursor, queryPages cursor rs
        = some (((pre.map QueryResponse.results).flatten), cursorTrace cursor pre) by
    refine ⟨hs rs pre h, ?_⟩
    simp [QueryDatabase, hs rs pre h none]
  intro rs
  induction rs with
  | nil => intro pre h; simp [consumedPrefix] at h
  | cons r rest ih =>
    intro pre h cursor
    by_cases hstop : stopsResp r
    · rw [consumedPrefix, if_pos hstop] at h
      have hpre : pre = [r] := by
        injection h with h
        exact h.symm
      subst hpre
      have hcases : r.hasMore = false ∨ r.nextCursor = none := by
        simpa [stopsResp, Option.isNone_iff_eq_none] using hstop
      rcases hcases with hm | hc
      · simp [queryPages, hm, cursorTrace]
      · by_cases hm : r.hasMore = false
        · simp [queryPages, hm, cursorTrace]
        · simp [queryPages, hm, hc, cursorTrace]
    · rw [consumedPrefix, if_neg hstop] at h
      obtain ⟨pre', hrest, hpre⟩ := Option.map_eq_some'.mp h
      subst hpre
      simp only [stopsResp, Bool.or_eq_true, Bool.not_eq_true',
        Option.isNone_iff_eq_none] at hstop
      push_neg at hstop
      obtain ⟨hm, hc⟩ := hstop
      rcases ho : r.nextCursor with _ | c
      · exact absurd ho hc
      · have hq := ih pre' hrest (some c)
        simp [queryPages, hm, ho, hq, cursorTrace]

/-- Witness for C2: the 3-page upstream (page sizes 2, 2, 1, `hasMore`
false on page 3) yields exactly the 5 items in page order, with the first
request cursor-less and each `nextCursor` passed forward. -/
theorem C2_witness :
    QueryDatabase
      [⟨[⟨"p1"⟩, ⟨"p2"⟩], true, some "c1"⟩,
       ⟨[⟨"p3"⟩, ⟨"p4"⟩], true, some "c2"⟩,
       ⟨[⟨"p5"⟩], false, none⟩]
      = some [⟨"p1"⟩, ⟨"p2"⟩, ⟨"p3"⟩, ⟨"p4"⟩, ⟨"p5"⟩]
    ∧ queryPages none
      [⟨[⟨"p1"⟩, ⟨"p2"⟩], true, some "c1"⟩,
       ⟨[⟨"p3"⟩, ⟨"p4"⟩], true, some "c2"⟩,
       ⟨[⟨"p5"⟩], false, none⟩]
      = some ([⟨"p1"⟩, ⟨"p2"⟩, ⟨"p3"⟩, ⟨"p4"⟩, ⟨"p5"⟩], [none, some "c1", some "c2"]) := by
  have h := C2_query_database_pagination
    [⟨[⟨"p1"⟩, ⟨"p2"⟩], true, some "c1"⟩,
     ⟨[⟨"p3"⟩, ⟨"p4"⟩], true, some "c2"⟩,
     ⟨[⟨"p5"⟩], false, none⟩]
    [⟨[⟨"p1"⟩, ⟨"p2"⟩], true, some "c1"⟩,
     ⟨[⟨"p3"⟩, ⟨"p4"⟩], true, some "c2"⟩,
     ⟨[⟨"p5"⟩], false, none⟩] rfl
  refine ⟨?_, ?_⟩
  · simpa using h.2
  · simpa [cursorTrace] using h.1 none

/-- A run of hint-less 429s at least as long as the remaining attempts
exhausts them; each attempt sleeps the current back-off and doubles it. -/
theorem doRequestAux_only429 :
    ∀ es, only429NoHint es → ∀ n b, n ≤ es.length →
      doRequestAux n b es = some (.maxRetriesExceeded, geomBackoffs n b) := by
  intro es
  induction es with
  | nil =>
    intro _ n b hn
    have h0 : n = 0 := Nat.le_zero.mp (by simpa using hn)
    subst h0
    rfl
  | cons e rest ih =>
    intro h429 n b hn
    match n with
    | 0 => rfl
    | n + 1 =>
      obtain ⟨em, ec, dk, he⟩ := h429 e (List.mem_cons_self e rest)
      subst he
      have hn' : n ≤ rest.length := by
        simp only [List.length_cons] at hn
        omega
      have hrest := ih (fun e' he' => h429 e' (List.mem_cons_of_mem _ he')) n (2 * b) hn'
      simp [doRequestAux, hrest, rateLimitWait, geomBackoffs]

/-- The doubling back-off waits are monotonically non-decreasing. -/
theorem geomBackoffs_chain (n b : Nat) : List.Chain' (· ≤ ·) (geomBackoffs n b) := by
  induction n generalizing b with
  | zero => simp [geomBackoffs]
  | succ n ih =>
    rw [geomBackoffs]
    refine List.chain'_cons'.mpr ⟨?_, ih (2 * b)⟩
    intro y hy
    cases n with
    | zero => simp [geomBackoffs] at hy
    | succ m =>
      rw [geomBackoffs] at hy
      simp only [List.head?_cons, Option.mem_def, Option.some.injEq] at hy
      omega

/-! ## Claim C3 -/

/-- C3: on a 429 the client waits the parsed server hint when one is
present, else the current back-off; it then doubles the back-off and
retries, up to `maxRetries` attempts; a run of hint-less 429s of length at
least the remaining attempts exhausts them, producing the distinct
`maxRetriesExceeded` outcome (unequal to every other outcome) after the
doubling back-off waits, which are monotonically non-decreasing. -/
theorem C3_rate_limit_backoff_retry :
    (∀ n b retryAfter em ec dk rest,
      doRequestAux (n + 1) b (.resp 429 retryAfter em ec dk :: rest)
        = match doRequestAux n (2 * b) rest with
          | none => none
          | some (r, ws) => some (r, rateLimitWait retryAfter b :: ws))
    ∧ (∀ b, rateLimitWait "" b = b)
    ∧ (∀ s b d, parseRetryAfterSeconds s = some d → rateLimitWait s b = d)
    ∧ (∀ es, only429NoHint es → ∀ n b, n ≤ es.length →
        doRequestAux n b es = some (.maxRetriesExceeded, geomBackoffs n b))
    ∧ (∀ n b, List.Chain' (· ≤ ·) (geomBackoffs n b))
    ∧ (∀ em ec msg, DoResult.maxRetriesExceeded ≠ .apiError em ec
        ∧ DoResult.maxRetriesExceeded ≠ .requestFailed msg
        ∧ DoResult.maxRetriesExceeded ≠ .ok
        ∧ DoResult.maxRetriesExceeded ≠ .decodeError) := by
  refine ⟨fun n b retryAfter em ec dk rest => rfl, fun b => rfl, ?_,
    doRequestAux_only429, geomBackoffs_chain, ?_⟩
  · intro s b d hparse
    have hs : s ≠ "" := by
      intro he
      rw [he] at hparse
      simp [parseRetryAfterSeconds] at hparse
    simp [rateLimitWait, hs, hparse]
  · intro em ec msg
    exact ⟨by simp, by simp, by simp, by simp⟩

/-- Witness for C3: three hint-less 429s exhaust the three attempts with
waits 1s, 2s, 4s and the distinct `maxRetriesExceeded` outcome; a `"2"`
`Retry-After` hint yields a 2-second wait. -/
theorem C3_witness :
    doRequest [.resp 429 "" "m" "c" true, .resp 429 "" "m" "c" true, .resp 429 "" "m" "c" true]
      = some (.maxRetriesExceeded, [1000000000, 2000000000, 4000000000])
    ∧ rateLimitWait "2" nsPerSecond = 2000000000
    ∧ List.Chain' (· ≤ ·) [1000000000, 2000000000, 4000000000]
    ∧ DoResult.maxRetriesExceeded ≠ DoResult.apiError "m" "c" := by
  have h := C3_rate_limit_backoff_retry
  have hex := h.2.2.2.1
    [.resp 429 "" "m" "c" true, .resp 429 "" "m" "c" true, .resp 429 "" "m" "c" true]
    (by
      intro e he
      simp only [List.mem_cons, List.not_mem_nil, or_false] at he
      rcases he with rfl | rfl | rfl <;> exact ⟨"m", "c", true, rfl⟩)
    3 nsPerSecond (by simp)
  have hchain := h.2.2.2.2.1 3 nsPerSecond
  refine ⟨?_, h.2.2.1 "2" nsPerSecond 2000000000 (by decide), ?_,
    (h.2.2.2.2.2 "m" "c" "x").1⟩
  · simpa [doRequest, maxRetries, geomBackoffs, nsPerSecond] using hex
  · simp only [geomBackoffs, nsPerSecond] at hchain
    convert hchain using 2

/-! ## Claim C4 -/

/-- Counterexample for C4: a 304 response — non-2xx and not a 429 — does
not fail the call: the code only treats statuses ≥ 400 as errors, so a 304
with a decodable body falls through to the success path. -/
theorem C4_counterexample_304_succeeds : ¬ claimC4NonTwoxxAlwaysFails := by
  intro h
  exact h 304 "" "m" "c" true [] 2 nsPerSecond (by omega) (by omega) [] rfl

/-- C4 (amended): any response with status ≥ 400 other than 429 fails the
call immediately — on the first such response, consuming no further events
and sleeping nothing — with the upstream-provided error message and code;
non-2xx statuses below 400 fall through to the success path instead. -/
theorem C4_amended_status_ge_400_fails_immediately
    (status : Nat) (ra em ec : String) (dk : Bool) (rest : List HTTPEvent) (n b : Nat)
    (h400 : 400 ≤ status) (h429 : status ≠ 429) :
    doRequestAux (n + 1) b (.resp status ra em ec dk :: rest)
      = some (.apiError em ec, []) := by
  have h4 : ¬ status = 429 := h429
  simp [doRequestAux, h4, h400]

/-- Witness for C4 (amended): a 500 fails at once with the upstream error;
the pending success response is never consumed (no retry, no sleeps). -/
theorem C4_witness :
    doRequestAux 3 nsPerSecond
      [.resp 500 "" "boom" "internal_error" true, .resp 200 "" "" "" true]
      = some (.apiError "boom" "internal_error", []) :=
  C4_amended_status_ge_400_fails_immediately 500 "" "boom" "internal_error" true
    [.resp 200 "" "" "" true] 2 nsPerSecond (by omega) (by omega)

/-! ## Path lemmas for claim C9 -/

theorem splitSep_ne_nil (p : GoStr) : splitSep p ≠ [] := by
  cases p with
  | nil => simp [splitSep]
  | cons c rest =>
    rw [splitSep]
    by_cases h : c = '/'
    · simp [h]
    · simp only [if_neg h]
      cases splitSep rest <;> simp

theorem splitSep_append (a b : GoStr) :
    splitSep (a ++ '/' :: b) = splitSep a ++ splitSep b := by
  induction a with
  | nil => simp [splitSep]
  | cons c rest ih =>
    by_cases h : c = '/'
    · subst h
      rw [List.cons_append, splitSep, if_pos rfl, ih, splitSep, if_pos rfl]
      rfl
    · cases hsr : splitSep rest with
      | nil => exact absurd hsr (splitSep_ne_nil rest)
      | cons w ws =>
        rw [List.cons_append, splitSep, if_neg h, ih, hsr, splitSep, if_neg h, hsr]
        rfl

theorem splitSep_no_slash (p : GoStr) : ∀ w ∈ splitSep p, '/' ∉ w := by
  induction p with
  | nil => simp [splitSep]
  | cons c rest ih =>
    rw [splitSep]
    by_cases h : c = '/'
    · simp only [if_pos h]
      intro w hw
      rcases List.mem_cons.mp hw with rfl | hw
      · simp
      · exact ih w hw
    · simp only [if_neg h]
      cases hsr : splitSep rest with
      | nil => exact absurd hsr (splitSep_ne_nil rest)
      | cons v vs =>
        intro w hw
        rcases List.mem_cons.mp hw with rfl | hw
        · intro hmem
          rcases List.mem_cons.mp hmem with he | he
          · exact h he.symm
          · exact ih v (hsr ▸ List.mem_cons_self v vs) he
        · exact ih w (hsr ▸ List.mem_cons_of_mem v hw)

theorem splitSep_of_no_slash (p : GoStr) (h : '/' ∉ p) : splitSep p = [p] := by
  induction p with
  | nil => simp [splitSep]
  | cons c rest ih =>
    have hc : ¬ c = '/' := fun he => h (he ▸ List.mem_cons_self c rest)
    have hr : '/' ∉ rest := fun hm => h (List.mem_cons_of_mem c hm)
    rw [splitSep, if_neg hc, ih hr]

theorem goBase_no_slash (p : GoStr) : goBase p = ['/'] ∨ '/' ∉ goBase p := by
  unfold goBase
  by_cases hp : p = []
  · simp [hp]
  · simp only [hp, if_false, ite_false]
    by_cases h2 : lastElem (dropTrailingSeps p) = []
    · left
      simp [h2]
    · right
      simp only [h2, ite_false, if_false]
      intro hmem
      have hmem' := List.mem_reverse.mp (by simpa [lastElem] using hmem)
      have := List.mem_takeWhile_imp hmem'
      simp at this

theorem goBase_ne_nil (p : GoStr) : goBase p ≠ [] := by
  unfold goBase
  by_cases hp : p = []
  · simp [hp]
  · simp only [hp, ite_false, if_false]
    by_cases h2 : lastElem (dropTrailingSeps p) = [] <;> simp [h2]

theorem cleanStep_push (r : Bool) (st : List GoStr) (e : GoStr)
    (h1 : e ≠ []) (h2 : e ≠ ['.']) (h3 : e ≠ ['.', '.']) :
    cleanStep r st e = e :: st := by
  unfold cleanStep
  rw [if_neg (by simp [h1, h2]), if_neg h3]

/-! ## Claim C9 -/

/-- C9: for every cache key — including keys containing `/` separators or
`..` components — and every nonempty cache directory, `cachePath` maps the
key to a file directly inside that directory: the cleaned element sequence
of the produced path is the directory's cleaned element sequence followed by
exactly one ordinary filename component (nonempty, slash-free, neither `.`
nor `..`, namely the basename of the key suffixed with `.cache`), and
rootedness is preserved.  Moreover `Get`, `Set`, `Delete` and `Has` touch no
other file: they leave the file system unchanged at every other path, and
what `Get`/`Has` return depends only on that one file. -/
theorem C9_cachePath_confined_to_dir (dir key : GoStr) (hdir : dir ≠ []) :
    cachePath dir key = goClean (dir ++ '/' :: (goBase key ++ ".cache".data))
    ∧ isRooted (dir ++ '/' :: (goBase key ++ ".cache".data)) = isRooted dir
    ∧ cleanElems (isRooted dir) (splitSep (dir ++ '/' :: (goBase key ++ ".cache".data)))
        = cleanElems (isRooted dir) (splitSep dir) ++ [fnameOf key]
    ∧ fnameOf key ≠ [] ∧ '/' ∉ fnameOf key ∧ fnameOf key ≠ ['.'] ∧ fnameOf key ≠ ['.', '.']
    ∧ (∀ fs now value ttl p, p ≠ cachePath dir key →
        (fileGet fs now dir key).2 p = fs p
        ∧ (fileSet fs now dir key value ttl).2 p = fs p
        ∧ (fileDelete fs dir key).2 p = fs p
        ∧ (fileHas fs now dir key).2 p = fs p)
    ∧ (∀ fs fs' now, fs (cachePath dir key) = fs' (cachePath dir key) →
        (fileGet fs now dir key).1 = (fileGet fs' now dir key).1
        ∧ (fileHas fs now dir key).1 = (fileHas fs' now dir key).1) := by
  have hname_ne : goBase key ++ ".cache".data ≠ [] := by
    intro h
    have := congrArg List.length h
    simp at this
  have hjoin : cachePath dir key = goClean (dir ++ '/' :: (goBase key ++ ".cache".data)) := by
    unfold cachePath goJoin
    rw [if_neg (by simp [hdir]), if_neg hdir, if_neg hname_ne]
  have hrooted : isRooted (dir ++ '/' :: (goBase key ++ ".cache".data)) = isRooted dir := by
    unfold isRooted
    rw [List.head?_append_of_ne_nil _ hdir]
  have hfname_wf : fnameOf key ≠ [] ∧ '/' ∉ fnameOf key
      ∧ fnameOf key ≠ ['.'] ∧ fnameOf key ≠ ['.', '.'] := by
    refine ⟨?_, ?_, ?_, ?_⟩
    · intro h
      have := congrArg List.length h
      simp [fnameOf] at this
    · intro h
      rcases List.mem_append.mp h with h | h
      · have := List.of_mem_filter h
        simp at this
      · exact absurd h (by decide)
    · intro h
      have := congrArg List.length h
      simp [fnameOf] at this
    · intro h
      have := congrArg List.length h
      simp [fnameOf] at this
  have helems : cleanElems (isRooted dir)
        (splitSep (dir ++ '/' :: (goBase key ++ ".cache".data)))
      = cleanElems (isRooted dir) (splitSep dir) ++ [fnameOf key] := by
    rw [splitSep_append]
    rcases goBase_no_slash key with hb | hb
    · rw [hb]
      have hsfx : splitSep (['/'] ++ ".cache".data) = [[], ".cache".data] := by
        rw [show (['/'] ++ ".cache".data : GoStr) = '/' :: ".cache".data from rfl,
          splitSep, if_pos rfl, splitSep_of_no_slash _ (by decide)]
      rw [hsfx]
      unfold cleanElems
      rw [List.foldl_append]
      have hstep0 : cleanStep (isRooted dir)
          (List.foldl (cleanStep (isRooted dir)) [] (splitSep dir)) [] =
          List.foldl (cleanStep (isRooted dir)) [] (splitSep dir) := by
        unfold cleanStep
        rw [if_pos (Or.inl rfl)]
      simp only [List.foldl_cons, List.foldl_nil, hstep0]
      rw [cleanStep_push _ _ _ (by decide) (by decide) (by decide)]
      simp [fnameOf, hb]
    · have hfe : fnameOf key = goBase key ++ ".cache".data := by
        unfold fnameOf
        congr 1
        refine List.filter_eq_self.mpr (fun c hc => ?_)
        rw [decide_eq_true_eq]
        intro he
        exact hb (he ▸ hc)
      have hns : '/' ∉ goBase key ++ ".cache".data := by
        intro h
        rcases List.mem_append.mp h with h | h
        · exact hb h
        · exact absurd h (by decide)
      rw [splitSep_of_no_slash _ hns]
      unfold cleanElems
      rw [List.foldl_append]
      simp only [List.foldl_cons, List.foldl_nil]
      rw [cleanStep_push _ _ _ hname_ne
        (by
          intro h
          have := congrArg List.length h
          simp at this)
        (by
          intro h
          have := congrArg List.length h
          simp at this)]
      simp [hfe]
  refine ⟨hjoin, hrooted, helems, hfname_wf.1, hfname_wf.2.1, hfname_wf.2.2.1,
    hfname_wf.2.2.2, ?_, ?_⟩
  · intro fs now value ttl p hp
    refine ⟨?_, ?_, ?_, ?_⟩
    · simp only [fileGet]
      cases fs (cachePath dir key) with
      | none => rfl
      | some it =>
        by_cases hex : now > it.expiresAt
        · simp [hex, hp]
        · simp [hex]
    · simp [fileSet, hp]
    · simp [fileDelete, hp]
    · simp only [fileHas]
      cases fs (cachePath dir key) with
      | none => rfl
      | some it =>
        by_cases hex : now > it.expiresAt
        · simp [hex, hp]
        · simp [hex]
  · intro fs fs' now hagree
    constructor
    · simp only [fileGet, hagree]
      cases fs' (cachePath dir key) with
      | none => rfl
      | some it => by_cases hex : now > it.expiresAt <;> simp [hex]
    · simp only [fileHas, hagree]
      cases fs' (cachePath dir key) with
      | none => rfl
      | some it => by_cases hex : now > it.expiresAt <;> simp [hex]

/-- Witness for C9: the traversal-attempting key `../../etc/passwd` under
directory `/tmp/c` maps to `/tmp/c/passwd.cache`, whose cleaned elements
are exactly those of the directory plus the single filename
`passwd.cache`; a delete for that key leaves an unrelated path untouched,
and reads agree across file systems agreeing on that one file. -/
theorem C9_witness :
    cachePath "/tmp/c".data "../../etc/passwd".data = "/tmp/c/passwd.cache".data
    ∧ cleanElems (isRooted "/tmp/c".data)
        (splitSep ("/tmp/c".data ++ '/' :: (goBase "../../etc/passwd".data ++ ".cache".data)))
      = cleanElems (isRooted "/tmp/c".data) (splitSep "/tmp/c".data)
          ++ [fnameOf "../../etc/passwd".data]
    ∧ fnameOf "../../etc/passwd".data = "passwd.cache".data
    ∧ (fileDelete (fun _ => some ⟨[1], 5⟩) "/tmp/c".data "../../etc/passwd".data).2
        "/etc/passwd".data = some ⟨[1], 5⟩
    ∧ (fileGet (fun _ => none) 0 "/tmp/c".data "../../etc/passwd".data).1
      = (fileGet (fun p => if p = "/x".data then some ⟨[2], 9⟩ else none)
          0 "/tmp/c".data "../../etc/passwd".data).1 := by
  have h := C9_cachePath_confined_to_dir "/tmp/c".data "../../etc/passwd".data (by decide)
  refine ⟨by decide, h.2.2.1, by decide, ?_, ?_⟩
  · exact (h.2.2.2.2.2.2.2.1 (fun _ => some ⟨[1], 5⟩) 0 [] 0 "/etc/passwd".data
      (by decide)).2.2.1
  · exact ((h.2.2.2.2.2.2.2.2 (fun _ => none)
      (fun p => if p = "/x".data then some ⟨[2], 9⟩ else none) 0) (by decide)).1

/-! ## Claim C1 -/

/-- Counterexample for C1: with the layered cache, when the memory entry
has expired but the durable entry is still valid and holds the same bytes,
the equal-digest refresh cycle still rewrites the memory-tier entry: the
read inside `refreshOnce` deletes the expired L1 entry and promotes the L2
value into L1 with the 5-minute TTL, so the stored entry's expiry changes
from `-1` to `5 * minuteNS` even though the digests are equal. -/
theorem C1_counterexample_promotion_rewrites_entry :
    ¬ claimC1EqualDigestLeavesEntryUntouched := by
  intro h
  have hget : (layeredGet
      (⟨[(['k'], ⟨[7], -1⟩)], ⟨0, 0, 1, 1⟩, 10000⟩,
       fun p => if p = cachePath "/d".data ['k'] then some ⟨[7], 100⟩ else none)
      0 "/d".data ['k']).1.1 = some [7] := by decide
  have hne : lookupItem (refreshOnce
      (⟨[(['k'], ⟨[7], -1⟩)], ⟨0, 0, 1, 1⟩, 10000⟩,
       fun p => if p = cachePath "/d".data ['k'] then some ⟨[7], 100⟩ else none)
      0 "/d".data ['k'] (.ok [7])).1.items ['k']
      ≠ lookupItem [(['k'], (⟨[7], -1⟩ : MemoryItem))] ['k'] := by decide
  exact hne (h
    (⟨[(['k'], ⟨[7], -1⟩)], ⟨0, 0, 1, 1⟩, 10000⟩,
     fun p => if p = cachePath "/d".data ['k'] then some ⟨[7], 100⟩ else none)
    0 "/d".data ['k'] [7] [7] hget rfl).1

/-- C1 (amended): for every key, a refresh cycle whose fetch succeeds
behaves as follows.  (a) If the read finds no cached bytes, it stores the
fetched bytes unconditionally in both tiers with the 1-hour TTL.  (b) If
the digest of the fetched bytes equals the digest of the currently cached
bytes, `refreshOnce` issues no write of its own — the resulting state is
exactly the state left by the read, and the durable tier (including the
stored entry's expiry) is wholly unchanged; the read itself may however
promote the value into the memory tier with the 5-minute read-through TTL,
changing the memory entry's expiry.  (c) If the digests differ, it
overwrites the entry in both tiers with the fetched bytes. -/
theorem C1_amended_refresh_hash_gated
    (st : Layered) (now : Int) (dir key : GoStr) (newData : List Nat) :
    ((layeredGet st now dir key).1.1 = none →
      refreshOnce st now dir key (.ok newData)
        = (layeredSet (layeredGet st now dir key).2 now dir key newData hourNS).2
      ∧ lookupItem (refreshOnce st now dir key (.ok newData)).1.items key
          = some ⟨newData, now + hourNS⟩
      ∧ (refreshOnce st now dir key (.ok newData)).2 (cachePath dir key)
          = some ⟨newData, now + hourNS⟩)
    ∧ (∀ ex, (layeredGet st now dir key).1.1 = some ex →
        HashContent newData = HashContent ex →
        refreshOnce st now dir key (.ok newData) = (layeredGet st now dir key).2
        ∧ (refreshOnce st now dir key (.ok newData)).2 = st.2)
    ∧ (∀ ex, (layeredGet st now dir key).1.1 = some ex →
        HashContent newData ≠ HashContent ex →
        refreshOnce st now dir key (.ok newData)
          = (layeredSet (layeredGet st now dir key).2 now dir key newData hourNS).2
        ∧ lookupItem (refreshOnce st now dir key (.ok newData)).1.items key
            = some ⟨newData, now + hourNS⟩
        ∧ (refreshOnce st now dir key (.ok newData)).2 (cachePath dir key)
            = some ⟨newData, now + hourNS⟩) := by
  refine ⟨fun hnone => ?_, fun ex hsome heq => ?_, fun ex hsome hne => ?_⟩
  · have hr : refreshOnce st now dir key (.ok newData)
        = (layeredSet (layeredGet st now dir key).2 now dir key newData hourNS).2 := by
      rw [refreshOnce_ok_eq, hnone]
    exact ⟨hr, hr ▸ layeredSet_mem_lookup _ now dir key newData hourNS,
      hr ▸ layeredSet_fs_lookup _ now dir key newData hourNS⟩
  · have hr : refreshOnce st now dir key (.ok newData) = (layeredGet st now dir key).2 := by
      rw [refreshOnce_ok_eq, hsome]
      exact if_pos heq
    exact ⟨hr, hr ▸ layeredGet_some_fs_unchanged st now dir key ex hsome⟩
  · have hr : refreshOnce st now dir key (.ok newData)
        = (layeredSet (layeredGet st now dir key).2 now dir key newData hourNS).2 := by
      rw [refreshOnce_ok_eq, hsome]
      exact if_neg hne
    exact ⟨hr, hr ▸ layeredSet_mem_lookup _ now dir key newData hourNS,
      hr ▸ layeredSet_fs_lookup _ now dir key newData hourNS⟩

/-- Witness for C1 (amended): (a) an empty cache stores the fetched bytes
`[7]`; (b) a valid memory entry with the same bytes leaves the state exactly
as the read left it; (c) a cached `[8]` whose digest differs from `[7]` is
overwritten in both tiers. -/
theorem C1_witness :
    lookupItem (refreshOnce (⟨[], ⟨0, 0, 0, 0⟩, 10000⟩, fun _ => none)
        0 "/d".data ['k'] (.ok [7])).1.items ['k'] = some ⟨[7], 0 + hourNS⟩
    ∧ refreshOnce (⟨[(['k'], ⟨[7], 100⟩)], ⟨0, 0, 1, 1⟩, 10000⟩, fun _ => none)
        0 "/d".data ['k'] (.ok [7])
      = (layeredGet (⟨[(['k'], ⟨[7], 100⟩)], ⟨0, 0, 1, 1⟩, 10000⟩, fun _ => none)
          0 "/d".data ['k']).2
    ∧ lookupItem (refreshOnce (⟨[(['k'], ⟨[8], 100⟩)], ⟨0, 0, 1, 1⟩, 10000⟩, fun _ => none)
        0 "/d".data ['k'] (.ok [7])).1.items ['k'] = some ⟨[7], 0 + hourNS⟩
    ∧ (refreshOnce (⟨[(['k'], ⟨[8], 100⟩)], ⟨0, 0, 1, 1⟩, 10000⟩, fun _ => none)
        0 "/d".data ['k'] (.ok [7])).2 (cachePath "/d".data ['k'])
          = some ⟨[7], 0 + hourNS⟩ := by
  have ha := (C1_amended_refresh_hash_gated (⟨[], ⟨0, 0, 0, 0⟩, 10000⟩, fun _ => none)
    0 "/d".data ['k'] [7]).1 (by decide)
  have hb := (C1_amended_refresh_hash_gated
    (⟨[(['k'], ⟨[7], 100⟩)], ⟨0, 0, 1, 1⟩, 10000⟩, fun _ => none)
    0 "/d".data ['k'] [7]).2.1 [7] (by decide) rfl
  have hc := (C1_amended_refresh_hash_gated
    (⟨[(['k'], ⟨[8], 100⟩)], ⟨0, 0, 1, 1⟩, 10000⟩, fun _ => none)
    0 "/d".data ['k'] [7]).2.2 [8] (by decide) (by decide)
  exact ⟨ha.2.1, hb.1, hc.2.1, hc.2.2⟩

/-! ## Lemmas for claim C8 -/

theorem append_singleton_eq_split {α : Type} {t pre mid : List α} {x e : α}
    (h : t ++ [e] = pre ++ x :: mid) :
    (pre = t ∧ x = e ∧ mid = []) ∨ ∃ mid', mid = mid' ++ [e] ∧ t = pre ++ x :: mid' := by
  rcases List.eq_nil_or_concat mid with rfl | ⟨mid', a, rfl⟩
  · left
    have hlen : t.length = pre.length := by
      have h3 := congrArg List.length h
      simp only [List.length_append, List.length_cons, List.length_nil] at h3
      omega
    obtain ⟨ht, he⟩ := List.append_inj h hlen
    have he' : e = x := by
      simpa using he
    exact ⟨ht.symm, he'.symm, rfl⟩
  · right
    rw [List.concat_eq_append] at h ⊢
    have h2 : t ++ [e] = (pre ++ x :: mid') ++ [a] := by
      rw [h]
      simp
    have hlen : t.length = (pre ++ x :: mid').length := by
      have h3 := congrArg List.length h2
      simp only [List.length_append, List.length_cons, List.length_nil] at h3 ⊢
      omega
    obtain ⟨ht, he⟩ := List.append_inj h2 hlen
    have hea : e = a := by
      simpa using he
    subst hea
    exact ⟨mid', rfl, ht⟩

theorem mem_mapTick {tasks : List (Nat × Bool)} {c c0 : Nat} {b x : Bool}
    (h : (c, b) ∈ tasks.map (fun p => if p.1 = c0 then (c0, x) else p)) :
    ∃ b0, (c, b0) ∈ tasks := by
  rcases List.mem_map.mp h with ⟨p, hp, he⟩
  obtain ⟨pc, pb⟩ := p
  by_cases hc : pc = c0
  · simp only [hc, if_pos rfl] at he
    obtain ⟨rfl, rfl⟩ : c0 = c ∧ x = b := by
      injection he with h1 h2
      exact ⟨h1, h2⟩
    exact ⟨pb, hc ▸ hp⟩
  · simp only [if_neg hc] at he
    exact ⟨b, he ▸ hp⟩

theorem mem_removeTask {tasks : List (Nat × Bool)} {c c0 : Nat} {b : Bool}
    (h : (c, b) ∈ removeTask tasks c0) : (c, b) ∈ tasks ∧ c ≠ c0 := by
  unfold removeTask at h
  have hf := List.mem_filter.mp h
  refine ⟨hf.1, ?_⟩
  simpa using hf.2

theorem tasksInv_step {a b : RefreshSys} (ha : TasksInv a) (h : RStep a b) : TasksInv b := by
  obtain ⟨h1, h2, h3, h4⟩ := ha
  cases h with
  | start =>
    refine ⟨?_, ?_, ?_, ?_⟩
    · intro c bb hmem
      simp only [startTransition, List.mem_cons] at hmem
      rcases hmem with he | hmem
      · obtain ⟨rfl, rfl⟩ : c = a.nextChan ∧ bb = false := by
          injection he with hh1 hh2
          exact ⟨hh1, hh2⟩
        exact ⟨by simp [startTransition], fun _ => by simp [startTransition]⟩
      · obtain ⟨hc, hcl⟩ := h1 c bb hmem
        refine ⟨by simp only [startTransition]; omega, fun hncl => ?_⟩
        exfalso
        apply hncl
        show c ∈ (startTransition a).closed
        cases hreg : a.registered with
        | none =>
          have hcin : c ∈ a.closed := by
            by_contra hn
            have hr := hcl hn
            rw [hreg] at hr
            exact Option.noConfusion hr
          simpa [startTransition, hreg] using hcin
        | some c0 =>
          by_cases hcc : c ∈ a.closed
          · simp only [startTransition, hreg]
            exact List.mem_cons_of_mem c0 hcc
          · have hr := hcl hcc
            rw [hreg] at hr
            obtain rfl : c0 = c := Option.some.inj hr
            simp [startTransition, hreg]
    · intro c hreg'
      simp only [startTransition, Option.some.injEq] at hreg'
      subst hreg'
      simp [startTransition]
    · intro c hst
      have hst' : REvent.stopped c ∈ a.trace := by
        simp only [startTransition, List.mem_append, List.mem_singleton] at hst
        rcases hst with hst | hst
        · exact hst
        · exact absurd hst (by simp)
      obtain ⟨hno, hlt⟩ := h3 c hst'
      refine ⟨?_, by simp only [startTransition]; omega⟩
      intro bb hmem
      simp only [startTransition, List.mem_cons] at hmem
      rcases hmem with he | hmem
      · have hcn : c = a.nextChan := congrArg Prod.fst he
        omega
      · exact hno bb hmem
    · intro pre c mid htr
      simp only [startTransition] at htr
      rcases append_singleton_eq_split htr with ⟨_, hxe, _⟩ | ⟨mid', hmid, ht⟩
      · exact absurd hxe (by simp)
      · subst hmid
        intro htick
        rcases List.mem_append.mp htick with htick | htick
        · exact h4 pre c mid' ht htick
        · simp at htick
  | tickFire c0 hmem0 =>
    refine ⟨?_, h2, ?_, h4⟩
    · intro c bb hmem
      unfold fireTick at hmem
      obtain ⟨b0, hb0⟩ := mem_mapTick hmem
      exact h1 c b0 hb0
    · intro c hst
      obtain ⟨hno, hlt⟩ := h3 c hst
      refine ⟨?_, hlt⟩
      intro bb hmem
      unfold fireTick at hmem
      obtain ⟨b0, hb0⟩ := mem_mapTick hmem
      exact hno b0 hb0
  | runTick c0 hmem0 =>
    refine ⟨?_, h2, ?_, ?_⟩
    · intro c bb hmem
      unfold clearTick at hmem
      obtain ⟨b0, hb0⟩ := mem_mapTick hmem
      exact h1 c b0 hb0
    · intro c hst
      have hst' : REvent.stopped c ∈ a.trace := by
        simp only [List.mem_append, List.mem_singleton] at hst
        rcases hst with hst | hst
        · exact hst
        · exact absurd hst (by simp)
      obtain ⟨hno, hlt⟩ := h3 c hst'
      refine ⟨?_, hlt⟩
      intro bb hmem
      unfold clearTick at hmem
      obtain ⟨b0, hb0⟩ := mem_mapTick hmem
      exact hno b0 hb0
    · intro pre c mid htr
      rcases append_singleton_eq_split htr with ⟨_, hxe, _⟩ | ⟨mid', hmid, ht⟩
      · exact absurd hxe (by simp)
      · subst hmid
        intro htick
        rcases List.mem_append.mp htick with htick | htick
        · exact h4 pre c mid' ht htick
        · have hcc : c = c0 := by simpa using htick
          subst hcc
          have hstopped : REvent.stopped c ∈ a.trace := by
            rw [ht]
            simp
          exact (h3 c hstopped).1 true hmem0
  | observeStop c0 p0 hmem0 hcl0 =>
    refine ⟨?_, h2, ?_, ?_⟩
    · intro c bb hmem
      obtain ⟨hmem', _⟩ := mem_removeTask hmem
      exact h1 c bb hmem'
    · intro c hst
      simp only [List.mem_append, List.mem_singleton] at hst
      rcases hst with hst | hst
      · obtain ⟨hno, hlt⟩ := h3 c hst
        exact ⟨fun bb hmem => hno bb (mem_removeTask hmem).1, hlt⟩
      · obtain rfl : c = c0 := by simpa using hst
        refine ⟨fun bb hmem => ?_, (h1 c p0 hmem0).1⟩
        exact (mem_removeTask hmem).2 rfl
    · intro pre c mid htr
      rcases append_singleton_eq_split htr with ⟨_, _, hmid⟩ | ⟨mid', hmid, ht⟩
      · subst hmid
        simp
      · subst hmid
        intro htick
        rcases List.mem_append.mp htick with htick | htick
        · exact h4 pre c mid' ht htick
        · simp at htick

theorem tasksInv_reachable (s : RefreshSys) (h : RReachable s) : TasksInv s := by
  induction h with
  | refl =>
    refine ⟨?_, ?_, ?_, ?_⟩
    · intro c b hmem
      exact absurd hmem (by simp [rinit])
    · intro c hreg
      exact absurd hreg (by simp [rinit])
    · intro c hst
      exact absurd hst (by simp [rinit])
    · intro pre c mid htr
      exact absurd htr (by simp [rinit])
  | tail hsteps hstep ih => exact tasksInv_step ih hstep

/-! ## Claim C8 -/

/-- Counterexample for C8: `StartPeriodicRefresh` closes the old task's stop
channel but does not wait for the old task to exit, and Go's `select` may
take any ready case — so on the reachable interleaving "old task's ticker
fires; `StartPeriodicRefresh` runs; old task selects the ready tick", the
old task executes a refresh tick after the new task has started. -/
theorem C8_counterexample_old_task_ticks_after_new_start :
    ¬ claimC8OldTaskNeverTicksAfterNewStart := by
  intro h
  have hreach := RSteps.tail (RSteps.tail (RSteps.tail (RSteps.tail
    (RSteps.refl rinit)
    (RStep.start rinit))
    (RStep.tickFire _ 0 (by decide)))
    (RStep.start _))
    (RStep.runTick _ 0 (by decide))
  have htr := h _ hreach [REvent.started 0] 1 [REvent.ticked 0] (by decide) 0 (by decide)
  exact htr (by decide)

/-- C8 (amended): `StartPeriodicRefresh` replaces the registration and
closes the old task's stop channel — signalling it — but starts the new
task immediately, without waiting for the old one to exit.  On every
reachable state, at most one running task is unsignalled (all others have
their channel closed), and a task never ticks after its `stopped` event;
but a signalled old task may remain running — and may still tick — after
the new task starts, until it observes the closed channel. -/
theorem C8_amended_start_signals_without_waiting (s : RefreshSys) (h : RReachable s) :
    (∀ c0, s.registered = some c0 →
      (startTransition s).registered = some s.nextChan
      ∧ c0 ∈ (startTransition s).closed
      ∧ (s.nextChan, false) ∈ (startTransition s).tasks)
    ∧ (∀ c bb c' bb', (c, bb) ∈ s.tasks → (c', bb') ∈ s.tasks →
        c ∉ s.closed → c' ∉ s.closed → c = c')
    ∧ (∀ pre c mid, s.trace = pre ++ REvent.stopped c :: mid → REvent.ticked c ∉ mid) := by
  obtain ⟨h1, _, _, h4⟩ := tasksInv_reachable s h
  refine ⟨fun c0 hreg => ⟨rfl, ?_, ?_⟩, fun c bb c' bb' hm hm' hnc hnc' => ?_, h4⟩
  · simp [startTransition, hreg]
  · simp [startTransition]
  · have hc := (h1 c bb hm).2 hnc
    have hc' := (h1 c' bb' hm').2 hnc'
    rw [hc] at hc'
    exact Option.some.inj hc'

/-- Witness for C8 (amended): in the reachable state after one
`StartPeriodicRefresh` (one running task on channel 0), a second start
registers channel 1, closes channel 0 and spawns task 1; task 0 is the
single unsignalled task. -/
theorem C8_witness :
    (startTransition (startTransition rinit)).registered = some 1
    ∧ 0 ∈ (startTransition (startTransition rinit)).closed
    ∧ (1, false) ∈ (startTransition (startTransition rinit)).tasks
    ∧ (0 : Nat) = 0 := by
  have hreach : RReachable (startTransition rinit) :=
    RSteps.tail (RSteps.refl rinit) (RStep.start rinit)
  have h := C8_amended_start_signals_without_waiting (startTransition rinit) hreach
  have h0 := h.1 0 rfl
  have h1 := h.2.1 0 false 0 false (by decide) (by decide) (by decide) (by decide)
  exact ⟨h0.1, h0.2.1, h0.2.2, h1⟩

end NotionMCP
